import Mathlib

/-!
Verification of the resilient provider ingestion layer of league_nexus.

Shallow embedding of:
- src/league.js   : stableStringify, APIClient.request (cache + retry loop),
                    APIClient._shouldRetry
- src/sleeperclient.js : SleeperClient.processItem retry loop and
                    classification
- src/dataingestion.js : ingestLeagueData / ingestAllLeagues aggregation
- the CacheService singleton (setCache/getCache/deleteCache/clearCache)
- a rate-limiter admission state machine (the Bottleneck library is a
  collaborator; its admission policy is modelled from the spec)
-/

namespace LeagueNexus

/-! ### JSON values

JavaScript values reachable by stableStringify (src/league.js lines 168-177):
null, booleans, numbers, strings, arrays, and plain objects.  An object is a
sequence of key/value properties in insertion order; JavaScript object keys
are unique. -/

inductive JVal : Type where
  | jnull : JVal
  | jbool (b : Bool) : JVal
  | jnum (n : Int) : JVal
  | jstr (s : String) : JVal
  | jarr (elems : List JVal) : JVal
  | jobj (fields : List (String × JVal)) : JVal

/-- JSON.stringify of a string key or string value.  The escaping details of
JSON.stringify are irrelevant to key canonicalization; we model quoting
only. -/
def jsonQuote (s : String) : String := "\"" ++ s ++ "\""

/-- Object.keys(value).sort() of src/league.js line 175: JavaScript default
sort orders strings lexicographically, modelled by the String order. -/
def sortKeys (ks : List String) : List String :=
  ks.mergeSort (fun a b => decide (a ≤ b))

theorem sizeOf_lookup_lt {k : String} {fields : List (String × JVal)} {v : JVal}
    (h : List.lookup k fields = some v) : sizeOf v < sizeOf fields := by
  induction fields with
  | nil => simp [List.lookup] at h
  | cons p rest ih =>
    obtain ⟨k1, v1⟩ := p
    rw [List.lookup] at h
    by_cases hk : k == k1
    · simp [hk] at h
      subst h
      simp
      omega
    · simp [hk] at h
      have := ih h
      simp
      omega

/-! stableStringify (src/league.js lines 168-177):

    function stableStringify(value) {
      if (value === null || typeof value !== 'object') return JSON.stringify(value)
      if (Array.isArray(value)) return '[' + value.map(stableStringify).join(',') + ']'
      const keys = Object.keys(value).sort()
      return '\x7b' + keys.map(key => JSON.stringify(key) + ':' + stableStringify(value[key])).join(',') + '\x7d'
    }

`stringifyElems` is the array map; `stringifyProps` walks the sorted key list
and looks each key up in the field list (JavaScript property access
value[key]). -/

mutual

def stableStringify : JVal → String
  | .jnull => "null"
  | .jbool b => cond b "true" "false"
  | .jnum n => toString n
  | .jstr s => jsonQuote s
  | .jarr elems => "[" ++ String.intercalate "," (stringifyElems elems) ++ "]"
  | .jobj fields =>
      "\x7b" ++
        String.intercalate "," (stringifyProps fields (sortKeys (fields.map Prod.fst)))
        ++ "\x7d"
termination_by v => (sizeOf v, 0)

def stringifyElems : List JVal → List String
  | [] => []
  | v :: rest => stableStringify v :: stringifyElems rest
termination_by l => (sizeOf l, 0)

def stringifyProps (fields : List (String × JVal)) : List String → List String
  | [] => []
  | k :: ks =>
      (jsonQuote k ++ ":" ++
        (match h : List.lookup k fields with
          | some v => stableStringify v
          | none => "undefined")) :: stringifyProps fields ks
termination_by ks => (sizeOf fields, ks.length)
decreasing_by
· exact Prod.Lex.left _ _ (sizeOf_lookup_lt h)
· exact Prod.Lex.right _ (by simp [List.length_cons])

end

/-- The cache key of src/league.js line 209:
`provider:METHOD:endpoint:stableStringify(params):stableStringify(data)`. -/
def cacheKey (provider methodUpper endpoint : String) (params body : JVal) : String :=
  provider ++ ":" ++ methodUpper ++ ":" ++ endpoint ++ ":" ++
    stableStringify params ++ ":" ++ stableStringify body

/-! ### Equality up to object-key insertion order

`KeyPerm v w` holds when `v` and `w` are the same JSON value except that, at
any nesting depth, the properties of an object may appear in a different
insertion order.  `KeyPermFields` matches two field lists pointwise (same
keys in the same order, values related); the `jobj` rule composes such a
pointwise match with a permutation of the properties. -/

mutual

inductive KeyPerm : JVal → JVal → Prop where
  | jnull : KeyPerm .jnull .jnull
  | jbool (b : Bool) : KeyPerm (.jbool b) (.jbool b)
  | jnum (n : Int) : KeyPerm (.jnum n) (.jnum n)
  | jstr (s : String) : KeyPerm (.jstr s) (.jstr s)
  | jarr {xs ys : List JVal} : KeyPermList xs ys → KeyPerm (.jarr xs) (.jarr ys)
  | jobj {fs hs gs : List (String × JVal)} :
      KeyPermFields fs hs → hs.Perm gs → KeyPerm (.jobj fs) (.jobj gs)

inductive KeyPermList : List JVal → List JVal → Prop where
  | nil : KeyPermList [] []
  | cons {x y : JVal} {xs ys : List JVal} :
      KeyPerm x y → KeyPermList xs ys → KeyPermList (x :: xs) (y :: ys)

inductive KeyPermFields : List (String × JVal) → List (String × JVal) → Prop where
  | nil : KeyPermFields [] []
  | cons {k : String} {x y : JVal} {fs hs : List (String × JVal)} :
      KeyPerm x y → KeyPermFields fs hs →
      KeyPermFields ((k, x) :: fs) ((k, y) :: hs)

end

/-- A JSON value as JavaScript produces it: every object has pairwise
distinct property keys, at every nesting depth. -/
inductive WFJson : JVal → Prop where
  | jnull : WFJson .jnull
  | jbool (b : Bool) : WFJson (.jbool b)
  | jnum (n : Int) : WFJson (.jnum n)
  | jstr (s : String) : WFJson (.jstr s)
  | jarr {xs : List JVal} : (∀ x ∈ xs, WFJson x) → WFJson (.jarr xs)
  | jobj {fs : List (String × JVal)} : (fs.map Prod.fst).Nodup →
      (∀ p ∈ fs, WFJson p.2) → WFJson (.jobj fs)

theorem keyPermFields_keys : ∀ {fs hs : List (String × JVal)},
    KeyPermFields fs hs → fs.map Prod.fst = hs.map Prod.fst
  | _, _, .nil => rfl
  | _, _, .cons _ hf => by simpa using keyPermFields_keys hf

theorem sortKeys_perm_eq {ks ls : List String} (h : ks.Perm ls) :
    sortKeys ks = sortKeys ls := by
  unfold sortKeys
  have hperm :
      (ks.mergeSort (fun a b => decide (a ≤ b))).Perm
        (ls.mergeSort (fun a b => decide (a ≤ b))) :=
    ((List.mergeSort_perm ks _).trans h).trans (List.mergeSort_perm ls _).symm
  have htrans : ∀ a b c : String,
      decide (a ≤ b) → decide (b ≤ c) → decide (a ≤ c) := by
    intro a b c hab hbc
    simp only [decide_eq_true_eq] at *
    exact le_trans hab hbc
  have htotal : ∀ a b : String, decide (a ≤ b) || decide (b ≤ a) := by
    intro a b
    simpa using le_total a b
  have hs1 : (ks.mergeSort (fun a b => decide (a ≤ b))).Sorted (· ≤ ·) :=
    (List.sorted_mergeSort htrans htotal ks).imp (fun h => by simpa using h)
  have hs2 : (ls.mergeSort (fun a b => decide (a ≤ b))).Sorted (· ≤ ·) :=
    (List.sorted_mergeSort htrans htotal ls).imp (fun h => by simpa using h)
  exact List.eq_of_perm_of_sorted hperm hs1 hs2

theorem lookup_eq_of_perm {l₁ l₂ : List (String × JVal)} (h : l₁.Perm l₂)
    (hnd : (l₂.map Prod.fst).Nodup) (k : String) :
    List.lookup k l₁ = List.lookup k l₂ := by
  induction h with
  | nil => rfl
  | cons p h ih =>
    obtain ⟨k1, v1⟩ := p
    simp only [List.map_cons, List.nodup_cons] at hnd
    by_cases hk : k == k1 <;> simp [List.lookup, hk, ih hnd.2]
  | swap x y l =>
    obtain ⟨kx, vx⟩ := x
    obtain ⟨ky, vy⟩ := y
    simp only [List.map_cons, List.nodup_cons, List.mem_cons] at hnd
    have hxy : kx ≠ ky := fun e => hnd.1 (Or.inl e)
    by_cases hx : k == kx <;> by_cases hy : k == ky
    · have e1 : k = kx := by simpa using hx
      have e2 : k = ky := by simpa using hy
      exact absurd (e1.symm.trans e2) hxy
    · simp [List.lookup, hx, hy]
    · simp [List.lookup, hx, hy]
    · simp [List.lookup, hx, hy]
  | trans h₁ h₂ ih₁ ih₂ =>
    have hndmid := ((h₂.map Prod.fst).nodup_iff).mpr hnd
    rw [ih₁ hndmid, ih₂ hnd]

/-- The string contributed to stableStringify by one sorted key: quoted key,
colon, stringified property value (JavaScript value[key]). -/
def stringifyLookup (fields : List (String × JVal)) (k : String) : String :=
  match List.lookup k fields with
  | some v => stableStringify v
  | none => "undefined"

theorem stringifyProps_eq_map (fields : List (String × JVal)) (ks : List String) :
    stringifyProps fields ks =
      ks.map (fun k => jsonQuote k ++ ":" ++ stringifyLookup fields k) := by
  induction ks with
  | nil => simp [stringifyProps]
  | cons k ks ih =>
    rw [stringifyProps, ih]
    cases hl : List.lookup k fields <;> simp [stringifyLookup, hl]

theorem stringifyLookup_cons (k1 : String) (v : JVal)
    (t : List (String × JVal)) (k : String) :
    stringifyLookup ((k1, v) :: t) k =
      if k == k1 then stableStringify v else stringifyLookup t k := by
  by_cases hk : k == k1 <;> simp [stringifyLookup, List.lookup, hk]

mutual

theorem keyPerm_stringify : ∀ {v w : JVal}, KeyPerm v w → WFJson w →
    stableStringify v = stableStringify w
  | _, _, .jnull, _ => rfl
  | _, _, .jbool _, _ => rfl
  | _, _, .jnum _, _ => rfl
  | _, _, .jstr _, _ => rfl
  | _, _, .jarr hl, .jarr hws => by
    rw [stableStringify, stableStringify, keyPermList_stringify hl hws]
  | _, _, .jobj hf hp, .jobj hnd hvals => by
    rename_i fs hs gs
    have hkeys : fs.map Prod.fst = hs.map Prod.fst := keyPermFields_keys hf
    have hkperm : (hs.map Prod.fst).Perm (gs.map Prod.fst) := hp.map _
    have hsort : sortKeys (fs.map Prod.fst) = sortKeys (gs.map Prod.fst) := by
      rw [hkeys]
      exact sortKeys_perm_eq hkperm
    have hwhs : ∀ p ∈ hs, WFJson p.2 := fun p hpmem => hvals p (hp.subset hpmem)
    have hpoint : ∀ k, stringifyLookup fs k = stringifyLookup gs k := by
      intro k
      have h1 : stringifyLookup fs k = stringifyLookup hs k :=
        keyPermFields_lookup hf hwhs k
      have h2 : stringifyLookup hs k = stringifyLookup gs k := by
        unfold stringifyLookup
        rw [lookup_eq_of_perm hp hnd k]
      rw [h1, h2]
    rw [stableStringify, stableStringify, stringifyProps_eq_map,
      stringifyProps_eq_map, hsort]
    have hfun : (fun k => jsonQuote k ++ ":" ++ stringifyLookup fs k) =
        (fun k => jsonQuote k ++ ":" ++ stringifyLookup gs k) :=
      funext (fun k => by rw [hpoint k])
    rw [hfun]

theorem keyPermList_stringify : ∀ {xs ys : List JVal}, KeyPermList xs ys →
    (∀ y ∈ ys, WFJson y) → stringifyElems xs = stringifyElems ys
  | _, _, .nil, _ => rfl
  | _, _, .cons hv hl, hw => by
    rename_i x y xs ys
    rw [stringifyElems, stringifyElems,
      keyPerm_stringify hv (hw y (by simp)),
      keyPermList_stringify hl (fun z hz => hw z (by simp [hz]))]

theorem keyPermFields_lookup : ∀ {fs hs : List (String × JVal)},
    KeyPermFields fs hs → (∀ p ∈ hs, WFJson p.2) → ∀ k : String,
    stringifyLookup fs k = stringifyLookup hs k
  | _, _, .nil, _, _ => rfl
  | _, _, .cons hv hf, hw, k => by
    rename_i k1 x y fs hs
    rw [stringifyLookup_cons, stringifyLookup_cons]
    by_cases hk : k == k1
    · simp only [hk, if_true]
      exact keyPerm_stringify hv (hw (k1, y) (by simp))
    · simp only [hk, if_false]
      exact keyPermFields_lookup hf (fun p hp => hw p (by simp [hp])) k

end

/-! ### Failure classification

src/league.js lines 242-248:

    _shouldRetry(err) {
      if (err.response && err.response.status) {
        const status = err.response.status
        return status >= 500 || status === 429
      }
      return true
    }

A failure is identified by `Option Nat`: `none` when no response arrived
(network failure, timeout), `some s` when a response with HTTP status `s`
arrived.  The inner `if` mirrors the truthiness test on
`err.response.status` (status 0 is falsy in JavaScript). -/
def shouldRetry (status : Option Nat) : Bool :=
  match status with
  | some s => if s ≠ 0 then decide (500 ≤ s) || decide (s = 429) else true
  | none => true

/-- src/sleeperclient.js lines 104-107:

    const status = error.response ? error.response.status : null;
    const isRetryable = status === null || (status >= 500 && status < 600);
-/
def sleeperIsRetryable (status : Option Nat) : Bool :=
  match status with
  | none => true
  | some s => decide (500 ≤ s) && decide (s < 600)

/-- One transport attempt either succeeds with a value or fails; a failure
carries the optional HTTP status of the response (none = no response). -/
inductive Outcome (α : Type) where
  | success (v : α)
  | failure (status : Option Nat)

/-- Backoff of src/league.js line 236:
`const delay = backoffBase * Math.pow(2, attempt)`. -/
def nextDelay (base attempt : Nat) : Nat := base * 2 ^ attempt

/-- Backoff of src/sleeperclient.js line 110:
`const backoff = Math.pow(2, retryCount) * 1000`. -/
def sleeperBackoff (retryCount : Nat) : Nat := 2 ^ retryCount * 1000

/-! ### SleeperClient retry loop (src/sleeperclient.js lines 97-146)

`processItem` runs one transport attempt for a queue item carrying
`retryCount`; on a retryable failure with `retryCount < RETRY_LIMIT` it
requeues the item with `retryCount + 1`, otherwise it rejects with the
error just observed.  `o n` is the outcome of the transport attempt made
with `retryCount = n`.  The result pairs the number of executed transport
attempts with the final settlement of the item's promise. -/
def sleeperProcess {α : Type} (o : Nat → Outcome α) (retryLimit retryCount : Nat) :
    Nat × Except (Option Nat) α :=
  match o retryCount with
  | .success v => (1, .ok v)
  | .failure st =>
    if h : retryCount < retryLimit ∧ sleeperIsRetryable st then
      let r := sleeperProcess o retryLimit (retryCount + 1)
      (r.1 + 1, r.2)
    else (1, .error st)
termination_by retryLimit - retryCount
decreasing_by
  simp_wf
  omega

/-- The successive values of `retryCount` across the executed attempts of
`sleeperProcess` (the attempt-count field of the queue item). -/
def sleeperAttempts {α : Type} (o : Nat → Outcome α) (retryLimit retryCount : Nat) :
    List Nat :=
  match o retryCount with
  | .success _ => [retryCount]
  | .failure st =>
    if h : retryCount < retryLimit ∧ sleeperIsRetryable st then
      retryCount :: sleeperAttempts o retryLimit (retryCount + 1)
    else [retryCount]
termination_by retryLimit - retryCount
decreasing_by
  simp_wf
  omega

/-! ### APIClient retry loop (src/league.js lines 224-239)

    for (let attempt = 0; attempt < maxRetries; attempt++) {
      try {
        const response = await limiter.schedule(exec)
        ... return response.data
      } catch (err) {
        const shouldRetry = this._shouldRetry(err)
        if (attempt === maxRetries - 1 || !shouldRetry) throw err
        const delay = backoffBase * Math.pow(2, attempt)
        await new Promise(resolve => setTimeout(resolve, delay))
      }
    }

The result is (number of executed transport attempts, backoff delays slept,
final result).  Every executed attempt passes through exactly one
`limiter.schedule` call, so the first component also counts rate-limiter
admissions.  The `attempt ≥ maxRetries` branch is the loop falling through
(only reachable when maxRetries = 0). -/
def apiLoop {α : Type} (o : Nat → Outcome α) (maxRetries backoffBase attempt : Nat) :
    Nat × List Nat × Except (Option Nat) α :=
  if h : attempt < maxRetries then
    match o attempt with
    | .success v => (1, [], .ok v)
    | .failure st =>
      if attempt = maxRetries - 1 ∨ shouldRetry st = false then (1, [], .error st)
      else
        let r := apiLoop o maxRetries backoffBase (attempt + 1)
        (r.1 + 1, nextDelay backoffBase attempt :: r.2.1, r.2.2)
  else (0, [], .error none)
termination_by maxRetries - attempt
decreasing_by
  simp_wf
  omega

theorem sleeperProcess_calls_le {α : Type} (o : Nat → Outcome α)
    (l : Nat) : ∀ c, (sleeperProcess o l c).1 ≤ l - c + 1 := by
  intro c
  generalize hn : l - c = n
  induction n generalizing c with
  | zero =>
    rw [sleeperProcess]
    cases o c with
    | success v => simp
    | failure st =>
      have : ¬ (c < l ∧ sleeperIsRetryable st) := by omega
      simp [this]
  | succ n ih =>
    rw [sleeperProcess]
    cases o c with
    | success v => simp
    | failure st =>
      by_cases hc : c < l ∧ sleeperIsRetryable st
      · dsimp only
        rw [dif_pos hc]
        have hrec := ih (c + 1) (by omega)
        show (sleeperProcess o l (c + 1)).1 + 1 ≤ n + 1 + 1
        omega
      · simp [hc]

theorem sleeperAttempts_range {α : Type} (o : Nat → Outcome α)
    (l : Nat) : ∀ c, sleeperAttempts o l c = List.range' c (sleeperProcess o l c).1 := by
  intro c
  generalize hn : l - c = n
  induction n generalizing c with
  | zero =>
    rw [sleeperAttempts, sleeperProcess]
    cases o c with
    | success v => simp [List.range']
    | failure st =>
      have : ¬ (c < l ∧ sleeperIsRetryable st) := by omega
      simp [this, List.range']
  | succ n ih =>
    rw [sleeperAttempts, sleeperProcess]
    cases o c with
    | success v => simp [List.range']
    | failure st =>
      by_cases hc : c < l ∧ sleeperIsRetryable st
      · dsimp only
        rw [dif_pos hc, dif_pos hc, ih (c + 1) (by omega)]
        show c :: List.range' (c + 1) (sleeperProcess o l (c + 1)).1 =
          List.range' c ((sleeperProcess o l (c + 1)).1 + 1)
        rw [List.range'_succ]
      · simp [hc, List.range']

theorem sleeperProcess_last_error {α : Type} (o : Nat → Outcome α)
    (l : Nat) : ∀ c st, (sleeperProcess o l c).2 = Except.error st →
      o (c + (sleeperProcess o l c).1 - 1) = Outcome.failure st := by
  intro c
  generalize hn : l - c = n
  induction n generalizing c with
  | zero =>
    intro st hst
    rw [sleeperProcess] at hst ⊢
    cases ho : o c with
    | success v => simp [ho] at hst
    | failure st0 =>
      rw [ho] at hst
      dsimp only at hst ⊢
      have hno : ¬ (c < l ∧ sleeperIsRetryable st0 = true) :=
        fun hcon => absurd hcon.1 (by omega)
      rw [dif_neg hno] at hst ⊢
      obtain rfl : st0 = st := by simpa using hst
      simpa using ho
  | succ n ih =>
    intro st hst
    rw [sleeperProcess] at hst ⊢
    cases ho : o c with
    | success v => simp [ho] at hst
    | failure st0 =>
      rw [ho] at hst
      dsimp only at hst ⊢
      by_cases hc : c < l ∧ sleeperIsRetryable st0
      · rw [dif_pos hc] at hst ⊢
        have hrec := ih (c + 1) (by omega) st (by exact hst)
        have harith : c + ((sleeperProcess o l (c + 1)).1 + 1) - 1 =
            (c + 1) + (sleeperProcess o l (c + 1)).1 - 1 := by omega
        show o (c + ((sleeperProcess o l (c + 1)).1 + 1) - 1) = Outcome.failure st
        rw [harith]
        exact hrec
      · rw [dif_neg hc] at hst ⊢
        obtain rfl : st0 = st := by simpa using hst
        simpa using ho

theorem apiLoop_calls_le {α : Type} (o : Nat → Outcome α) (m b : Nat) :
    ∀ a, (apiLoop o m b a).1 ≤ m - a := by
  intro a
  generalize hn : m - a = n
  induction n generalizing a with
  | zero =>
    rw [apiLoop]
    have hna : ¬ a < m := by omega
    rw [dif_neg hna]
  | succ n ih =>
    rw [apiLoop]
    have ha : a < m := by omega
    rw [dif_pos ha]
    cases o a with
    | success v => simp
    | failure st =>
      dsimp only
      by_cases hstop : a = m - 1 ∨ shouldRetry st = false
      · rw [if_pos hstop]
        simp
      · rw [if_neg hstop]
        have hrec := ih (a + 1) (by omega)
        show (apiLoop o m b (a + 1)).1 + 1 ≤ n + 1
        omega

/-- A transport that always fails with HTTP status `s`. -/
def constFailure (s : Nat) : Nat → Outcome Nat := fun _ => Outcome.failure (some s)

/-- C2 counterexample: the claim says a 429 response is classified Retryable
by every retry controller of this layer, but SleeperClient.processItem
(src/sleeperclient.js lines 104-108) classifies 429 as not retryable:
`status === null || (status >= 500 && status < 600)` is false at 429. -/
theorem claim_C2_counterexample : sleeperIsRetryable (some 429) = false := by
  decide

/-- C2 (amended): APIClient._shouldRetry classifies as the claim says
(no response → retry; 500 and above or 429 → retry; any other 4xx → fatal),
but SleeperClient retries only on no response or a 5xx status in [500,600):
it classifies 429 — like every other 4xx — as fatal and rejects with zero
retries; a 404 on the first attempt fails immediately in both loops. -/
theorem claim_C2_classification (s : Nat) :
    shouldRetry none = true ∧
    (500 ≤ s → shouldRetry (some s) = true) ∧
    shouldRetry (some 429) = true ∧
    (400 ≤ s → s ≤ 499 → s ≠ 429 → shouldRetry (some s) = false) ∧
    sleeperIsRetryable none = true ∧
    (500 ≤ s → s < 600 → sleeperIsRetryable (some s) = true) ∧
    (400 ≤ s → s < 500 → sleeperIsRetryable (some s) = false) ∧
    sleeperProcess (constFailure 404) 3 0 = (1, Except.error (some 404)) ∧
    sleeperProcess (constFailure 429) 3 0 = (1, Except.error (some 429)) ∧
    apiLoop (constFailure 404) 3 300 0 = (1, [], Except.error (some 404)) := by
  refine ⟨rfl, ?_, by decide, ?_, rfl, ?_, ?_, ?_, ?_, ?_⟩
  · intro h5
    have hs0 : s ≠ 0 := by omega
    simp [shouldRetry, hs0]
    omega
  · intro h4 h4b hne
    have hs0 : s ≠ 0 := by omega
    simp [shouldRetry, hs0]
    omega
  · intro h5 h6
    simp [sleeperIsRetryable]
    omega
  · intro h4 h5
    simp [sleeperIsRetryable]
    omega
  · rw [sleeperProcess]
    simp [constFailure, sleeperIsRetryable]
  · rw [sleeperProcess]
    simp [constFailure, sleeperIsRetryable]
  · rw [apiLoop]
    simp [constFailure, shouldRetry]

/-- C2 witness: the amended classification applied at status 404. -/
theorem claim_C2_classification_witness :
    (400 ≤ 404 ∧ 404 ≤ 499 ∧ 404 ≠ 429) ∧ shouldRetry (some 404) = false :=
  ⟨by omega, (claim_C2_classification 404).2.2.2.1 (by omega) (by omega) (by omega)⟩

/-- C3: for every transport behavior, the SleeperClient retry loop executes
at most RETRY_LIMIT + 1 transport attempts; the successive retryCount values
of the queue item are monotonically non-decreasing and never exceed the
ceiling; when the loop settles with an error it is the error observed at the
last executed attempt; the APIClient loop executes at most maxRetries
attempts, which is within retryCeiling + 1. -/
theorem claim_C3_retry_ceiling {α : Type} (o : Nat → Outcome α) (l m b : Nat) :
    (sleeperProcess o l 0).1 ≤ l + 1 ∧
    List.Chain' (· ≤ ·) (sleeperAttempts o l 0) ∧
    (∀ a ∈ sleeperAttempts o l 0, a ≤ l) ∧
    (∀ st, (sleeperProcess o l 0).2 = Except.error st →
      o ((sleeperProcess o l 0).1 - 1) = Outcome.failure st) ∧
    (apiLoop o m b 0).1 ≤ m + 1 := by
  refine ⟨?_, ?_, ?_, ?_, ?_⟩
  · have := sleeperProcess_calls_le o l 0
    omega
  · rw [sleeperAttempts_range]
    exact (List.pairwise_le_range' 0 _).chain'
  · intro a ha
    rw [sleeperAttempts_range] at ha
    have hmem := List.mem_range'_1.mp ha
    have := sleeperProcess_calls_le o l 0
    omega
  · intro st hst
    have := sleeperProcess_last_error o l 0 st hst
    simpa using this
  · have := apiLoop_calls_le o m b 0
    omega

/-- C3 witness: a transport that fails with 503 forever, retry limit 2:
three attempts are executed, the loop settles with the last observed 503,
and the bounds of the claim hold concretely. -/
theorem claim_C3_retry_ceiling_witness :
    ((sleeperProcess (constFailure 503) 2 0).2 = Except.error (some 503) ∧
      constFailure 503 ((sleeperProcess (constFailure 503) 2 0).1 - 1) =
        Outcome.failure (some 503)) ∧
    (sleeperProcess (constFailure 503) 2 0).1 ≤ 3 := by
  have h := claim_C3_retry_ceiling (constFailure 503) 2 3 300
  have herr : (sleeperProcess (constFailure 503) 2 0).2 = Except.error (some 503) := by
    rw [sleeperProcess, sleeperProcess, sleeperProcess]
    simp [constFailure, sleeperIsRetryable]
  exact ⟨⟨herr, h.2.2.2.1 (some 503) herr⟩, h.1⟩

/-- C6: the APIClient backoff delay before the (n+1)-th retry is
backoffBase * 2^n (src/league.js line 236) and is strictly increasing in n
for a positive base; the SleeperClient backoff is 1000 * 2^n milliseconds
(src/sleeperclient.js line 110) and is strictly increasing. -/
theorem claim_C6_backoff (base n : Nat) (hbase : 0 < base) :
    nextDelay base n = base * 2 ^ n ∧
    nextDelay base n < nextDelay base (n + 1) ∧
    sleeperBackoff n = 1000 * 2 ^ n ∧
    sleeperBackoff n < sleeperBackoff (n + 1) := by
  refine ⟨rfl, ?_, by unfold sleeperBackoff; ring, ?_⟩
  · unfold nextDelay
    have h2 : (2 : Nat) ^ n < 2 ^ (n + 1) :=
      Nat.pow_lt_pow_succ (by norm_num)
    exact mul_lt_mul_of_pos_left h2 hbase
  · unfold sleeperBackoff
    have h2 : (2 : Nat) ^ n < 2 ^ (n + 1) :=
      Nat.pow_lt_pow_succ (by norm_num)
    exact mul_lt_mul_of_pos_right h2 (by norm_num)

/-- C6 witness: the backoff formula at base 300 (the configured default)
and attempt 2. -/
theorem claim_C6_backoff_witness :
    0 < 300 ∧ (nextDelay 300 2 = 300 * 2 ^ 2 ∧
      nextDelay 300 2 < nextDelay 300 3 ∧
      sleeperBackoff 2 = 1000 * 2 ^ 2 ∧
      sleeperBackoff 2 < sleeperBackoff 3) :=
  ⟨by decide, claim_C6_backoff 300 2 (by decide)⟩

/-- C4: two request descriptors that are equal except for the insertion
order of their parameter-map keys, at any nesting depth of the params or
body objects, derive the identical cache key; the key is the stated pure
function of provider, uppercased method, endpoint and the canonicalized
params and body. -/
theorem claim_C4_cache_key (provider methodUpper endpoint : String)
    (p1 p2 b1 b2 : JVal) (hp : KeyPerm p1 p2) (hb : KeyPerm b1 b2)
    (wp : WFJson p2) (wb : WFJson b2) :
    cacheKey provider methodUpper endpoint p1 b1 =
      cacheKey provider methodUpper endpoint p2 b2 := by
  unfold cacheKey
  rw [keyPerm_stringify hp wp, keyPerm_stringify hb wb]

/-- Query parameters `a=1, b=2` in the two possible insertion orders. -/
def paramsAB : JVal := .jobj [("a", .jnum 1), ("b", .jnum 2)]

def paramsBA : JVal := .jobj [("b", .jnum 2), ("a", .jnum 1)]

theorem keyPerm_paramsAB_paramsBA : KeyPerm paramsAB paramsBA :=
  KeyPerm.jobj
    (KeyPermFields.cons (KeyPerm.jnum 1)
      (KeyPermFields.cons (KeyPerm.jnum 2) KeyPermFields.nil))
    (List.Perm.swap ("b", JVal.jnum 2) ("a", JVal.jnum 1) [])

theorem wfJson_paramsBA : WFJson paramsBA :=
  WFJson.jobj (by decide) (by
    intro p hp
    rcases List.mem_cons.mp hp with rfl | hp2
    · exact WFJson.jnum 2
    · rcases List.mem_cons.mp hp2 with rfl | hp3
      · exact WFJson.jnum 1
      · exact absurd hp3 (List.not_mem_nil p))

/-- C4 witness: the descriptors of a standings GET whose params maps list
`a` before `b` and `b` before `a` derive the same cache key. -/
theorem claim_C4_cache_key_witness :
    KeyPerm paramsAB paramsBA ∧
    cacheKey "sleeper" "GET" "/leagues/1/standings" paramsAB .jnull =
      cacheKey "sleeper" "GET" "/leagues/1/standings" paramsBA .jnull :=
  ⟨keyPerm_paramsAB_paramsBA,
    claim_C4_cache_key "sleeper" "GET" "/leagues/1/standings"
      paramsAB paramsBA .jnull .jnull keyPerm_paramsAB_paramsBA KeyPerm.jnull
      wfJson_paramsBA WFJson.jnull⟩

/-! ### Bulk ingestion (src/dataingestion.js) -/

/-- The data types ingested for every league: the keys of `dataSchemas`
(src/dataingestion.js lines 67-73). -/
def dataTypes : List String :=
  ["standings", "matchups", "transactions", "draft", "analytics"]

/-- One entry of the ingestAllLeagues result
(src/dataingestion.js lines 163-169). -/
structure IngestEntry (α : Type) where
  league : String
  data : Option (List (String × α))
  error : Option String
deriving DecidableEq

/-- src/dataingestion.js ingestLeagueData (lines 130-160): validate the
league config (an invalid config throws a ConfigurationError before any
fetch), then fetch and validate every data type under Promise.all.
`fetchValidate t` is the combined outcome of fetchProviderData plus schema
validation for data type `t`.  If any data type fails, Promise.all rejects
and the function re-throws that error (the catch block re-throws after
counting the failure); only when every data type succeeds is the map of
per-type sanitized results returned. -/
def ingestLeagueData {α : Type} (cfgOk : Bool)
    (fetchValidate : String → Except String α) :
    Except String (List (String × α)) :=
  if cfgOk = false then Except.error "ConfigurationError"
  else
    match dataTypes.findSome? (fun t =>
        match fetchValidate t with
        | .error e => some e
        | .ok _ => none) with
    | some e => Except.error e
    | none => Except.ok (dataTypes.filterMap (fun t =>
        match fetchValidate t with
        | .ok v => some (t, v)
        | .error _ => none))

/-- The ingestAllLeagues task body for one league config (id, config
validity, per-type fetch outcome): the try/catch of
src/dataingestion.js lines 163-169. -/
def ingestEntryOf {α : Type}
    (cfg : String × Bool × (String → Except String α)) : IngestEntry α :=
  match ingestLeagueData cfg.2.1 cfg.2.2 with
  | .ok d => ⟨cfg.1, some d, none⟩
  | .error e => ⟨cfg.1, none, some e⟩

/-- src/dataingestion.js ingestAllLeagues (lines 162-172): every league's
ingestLeagueData rejection is caught and recorded in that league's entry
(`error: err.message`), so sibling leagues always complete. -/
def ingestAllLeagues {α : Type}
    (cfgs : List (String × Bool × (String → Except String α))) :
    List (IngestEntry α) :=
  cfgs.map ingestEntryOf

/-- Fetch/validate outcomes for a league where matchups validation fails
and every other data type (standings included) succeeds. -/
def matchupsFail : String → Except String Nat := fun t =>
  if t = "matchups" then Except.error "ValidationError" else Except.ok 0

/-- C1 counterexample: for a league whose matchups validation fails while
standings succeeds, ingestLeagueData does not return a result map at all —
the validation error escapes it as an exception (Promise.all rejects and
the catch block re-throws), so the claimed map with a failure entry for
matchups and a success entry for standings is never produced. -/
theorem claim_C1_counterexample :
    ingestLeagueData true matchupsFail = Except.error "ValidationError" ∧
    ∀ m, ingestLeagueData true matchupsFail ≠ Except.ok m := by
  constructor
  · rfl
  · intro m hm
    rw [show ingestLeagueData true matchupsFail = Except.error "ValidationError" from rfl]
      at hm
    cases hm

/-- C1 (amended): the failure of one data type makes ingestLeagueData
reject for the whole league (no result map is returned); per-item isolation
happens one level up: ingestAllLeagues catches every league's rejection,
records it in that league's entry, and every sibling league's entry is
still produced, exactly as its own config dictates. -/
theorem claim_C1_amended {α : Type}
    (cfgs : List (String × Bool × (String → Except String α)))
    (fetch : String → Except String α) (t0 e : String)
    (ht : t0 ∈ dataTypes) (hfail : fetch t0 = Except.error e) :
    (∃ e2, ingestLeagueData true fetch = Except.error e2) ∧
    (ingestAllLeagues cfgs).length = cfgs.length ∧
    (∀ i : Nat, (ingestAllLeagues cfgs)[i]? = (cfgs[i]?).map ingestEntryOf) := by
  refine ⟨?_, by simp [ingestAllLeagues], ?_⟩
  · cases hfs : dataTypes.findSome? (fun t =>
        match fetch t with
        | .error e2 => some e2
        | .ok _ => none) with
    | some e2 =>
      exact ⟨e2, by simp [ingestLeagueData, hfs]⟩
    | none =>
      rw [List.findSome?_eq_none_iff] at hfs
      have hnone := hfs t0 ht
      rw [hfail] at hnone
      cases hnone
  · intro i
    simp [ingestAllLeagues, List.getElem?_map]

/-- C1 witness: the amended statement at a two-league batch where the first
league's matchups fail and the second league is fully healthy. -/
theorem claim_C1_amended_witness :
    ("matchups" ∈ dataTypes ∧
      matchupsFail "matchups" = Except.error "ValidationError") ∧
    (∃ e2, ingestLeagueData true matchupsFail = Except.error e2) ∧
    (ingestAllLeagues [("L1", true, matchupsFail),
      ("L2", true, fun _ => Except.ok 7)]).length = 2 := by
  have h := claim_C1_amended
    [("L1", true, matchupsFail), ("L2", true, fun _ => Except.ok 7)]
    matchupsFail "matchups" "ValidationError" (by simp [dataTypes]) rfl
  exact ⟨⟨by simp [dataTypes], rfl⟩, h.1, h.2.1⟩

/-! ### The full request path of APIClient.request (src/league.js 203-240)

The response cache is the NodeCache instance of line 166, a library
collaborator.  Modelled from the spec: spec section 4.1 fixes the cache
contract — get returns the stored value of an unexpired entry, a missing or
expired entry is absent; set stores the value with an expiry timestamp.  -/

/-- Cache contents: key, value and expiry timestamp. -/
abbrev CacheMap (α : Type) := List (String × α × Nat)

/-- Modelled from the spec: NodeCache get — the stored value if the entry
exists and its expiry has not passed, absent otherwise. -/
def cacheGet {α : Type} (cache : CacheMap α) (now : Nat) (k : String) :
    Option α :=
  match cache.lookup k with
  | some (v, exp) => if now ≤ exp then some v else none
  | none => none

/-- Modelled from the spec: NodeCache set with the configured standard ttl —
replaces any entry for the key, the new entry expiring at now + ttl. -/
def cacheSet {α : Type} (cache : CacheMap α) (now ttl : Nat) (k : String)
    (v : α) : CacheMap α :=
  (k, v, now + ttl) :: cache.filter (fun e => !(e.1 == k))

/-- method.toUpperCase() of src/league.js line 208, modelled as ASCII
uppercasing of every character. -/
def toUpperCase (s : String) : String := String.mk (s.data.map Char.toUpper)

/-- src/league.js APIClient.request (lines 203-240): reject unknown
providers before anything else, look GET requests up in the cache, on a
miss run the rate-limited transport with the retry loop, store successful
GET responses back in the cache.  The result is a ConfigurationError
(Except.error, thrown before any transport call, cache access or limiter
admission) for an unknown provider, and otherwise (final result, number of
executed transport calls = limiter admissions, cache afterwards). -/
def requestModel {α : Type} (providers : List String)
    (provider method endpoint : String) (params body : JVal)
    (o : Nat → Outcome α) (maxRetries backoffBase ttl now : Nat)
    (cache : CacheMap α) :
    Except String (Except (Option Nat) α × Nat × CacheMap α) :=
  if provider ∉ providers then
    Except.error ("Unknown provider: " ++ provider)
  else
    let methodUpper := toUpperCase method
    let key := cacheKey provider methodUpper endpoint params body
    if methodUpper = "GET" then
      match cacheGet cache now key with
      | some v => Except.ok (Except.ok v, 0, cache)
      | none =>
        let r := apiLoop o maxRetries backoffBase 0
        match r.2.2 with
        | .ok v => Except.ok (Except.ok v, r.1, cacheSet cache now ttl key v)
        | .error e => Except.ok (Except.error e, r.1, cache)
    else
      let r := apiLoop o maxRetries backoffBase 0
      Except.ok (r.2.2, r.1, cache)

theorem apiLoop_calls_pos {α : Type} (o : Nat → Outcome α) (m b : Nat)
    (hm : 0 < m) : 1 ≤ (apiLoop o m b 0).1 := by
  rw [apiLoop, dif_pos hm]
  cases o 0 with
  | success v => simp
  | failure st =>
    dsimp only
    by_cases hstop : 0 = m - 1 ∨ shouldRetry st = false
    · rw [if_pos hstop]
    · rw [if_neg hstop]
      show 1 ≤ (apiLoop o m b 1).1 + 1
      omega

theorem cacheGet_cacheSet_self {α : Type} (cache : CacheMap α)
    (now ttl now2 : Nat) (k : String) (v : α) :
    cacheGet (cacheSet cache now ttl k v) now2 k =
      if now2 ≤ now + ttl then some v else none := by
  simp [cacheGet, cacheSet, List.lookup]

/-- C7: a request naming a provider with no configuration fails with a
ConfigurationError raised before any transport call, cache access or
rate-limiter admission: the error is returned and the outcome is
independent of the transport, the retry configuration, the clock and the
cache; likewise ingestLeagueData with an invalid league config fails before
consulting any fetch. -/
theorem claim_C7_unknown_provider {α : Type} (providers : List String)
    (provider method endpoint : String) (params body : JVal)
    (o o2 : Nat → Outcome α) (m m2 b b2 ttl ttl2 now now2 : Nat)
    (cache cache2 : CacheMap α) (hp : provider ∉ providers)
    (f g : String → Except String α) :
    requestModel providers provider method endpoint params body
        o m b ttl now cache =
      Except.error ("Unknown provider: " ++ provider) ∧
    requestModel providers provider method endpoint params body
        o m b ttl now cache =
      requestModel providers provider method endpoint params body
        o2 m2 b2 ttl2 now2 cache2 ∧
    ingestLeagueData false f = Except.error "ConfigurationError" ∧
    ingestLeagueData false f = ingestLeagueData false g := by
  refine ⟨?_, ?_, rfl, rfl⟩ <;> simp [requestModel, hp]

/-- C7 witness: requesting provider espn when only sleeper is configured. -/
theorem claim_C7_unknown_provider_witness :
    ("espn" ∉ ["sleeper"]) ∧
    requestModel ["sleeper"] "espn" "get" "/x" JVal.jnull JVal.jnull
        (constFailure 503) 3 300 60 0 [] =
      Except.error "Unknown provider: espn" := by
  have hp : "espn" ∉ ["sleeper"] := by decide
  exact ⟨hp, (claim_C7_unknown_provider ["sleeper"] "espn" "get" "/x"
    JVal.jnull JVal.jnull (constFailure 503) (constFailure 503) 3 3 300 300
    60 60 0 0 [] [] hp (fun _ => Except.ok 0) (fun _ => Except.ok 0)).1⟩

/-- C5: a GET descriptor already cached and unexpired is served from the
cache with zero transport calls; a GET miss fetched successfully performs
one transport call and stores the value with expiry now + ttl, so an
identical descriptor issued before the ttl elapses is served from the cache
with zero transport calls while one issued after the ttl elapses misses and
performs a new transport call; non-GET requests never read or write the
cache and always go to transport. -/
theorem claim_C5_cache_behavior {α : Type} (providers : List String)
    (provider method method2 endpoint : String) (params body : JVal)
    (o o2 o3 : Nat → Outcome α) (m b ttl now now2 : Nat) (cache : CacheMap α)
    (v : α) (hprov : provider ∈ providers) (hm : toUpperCase method = "GET")
    (hmiss : cacheGet cache now
      (cacheKey provider "GET" endpoint params body) = none)
    (hok : o 0 = Outcome.success v) (hmr : 0 < m) :
    (requestModel providers provider method endpoint params body
        o m b ttl now cache =
      Except.ok (Except.ok v, 1,
        cacheSet cache now ttl
          (cacheKey provider "GET" endpoint params body) v)) ∧
    (now2 ≤ now + ttl →
      requestModel providers provider method endpoint params body
          o2 m b ttl now2
          (cacheSet cache now ttl
            (cacheKey provider "GET" endpoint params body) v) =
        Except.ok (Except.ok v, 0,
          cacheSet cache now ttl
            (cacheKey provider "GET" endpoint params body) v)) ∧
    (now + ttl < now2 →
      ∃ res cache3,
        requestModel providers provider method endpoint params body
            o2 m b ttl now2
            (cacheSet cache now ttl
              (cacheKey provider "GET" endpoint params body) v) =
          Except.ok (res, (apiLoop o2 m b 0).1, cache3) ∧
        1 ≤ (apiLoop o2 m b 0).1) ∧
    (toUpperCase method2 ≠ "GET" →
      requestModel providers provider method2 endpoint params body
          o3 m b ttl now cache =
        Except.ok ((apiLoop o3 m b 0).2.2, (apiLoop o3 m b 0).1, cache) ∧
      1 ≤ (apiLoop o3 m b 0).1) := by
  have hloop : apiLoop o m b 0 = (1, [], Except.ok v) := by
    rw [apiLoop, dif_pos hmr, hok]
  refine ⟨?_, ?_, ?_, ?_⟩
  · simp [requestModel, hprov, hm, hmiss, hloop]
  · intro hfresh
    simp [requestModel, hprov, hm, cacheGet_cacheSet_self, hfresh]
  · intro hexp
    have hmiss2 : cacheGet
        (cacheSet cache now ttl
          (cacheKey provider "GET" endpoint params body) v) now2
        (cacheKey provider "GET" endpoint params body) = none := by
      rw [cacheGet_cacheSet_self, if_neg (by omega)]
    cases hres : (apiLoop o2 m b 0).2.2 with
    | ok w =>
      refine ⟨Except.ok w,
        cacheSet (cacheSet cache now ttl
            (cacheKey provider "GET" endpoint params body) v) now2 ttl
          (cacheKey provider "GET" endpoint params body) w, ?_,
        apiLoop_calls_pos o2 m b hmr⟩
      simp [requestModel, hprov, hm, hmiss2, hres]
    | error e =>
      refine ⟨Except.error e,
        cacheSet cache now ttl
          (cacheKey provider "GET" endpoint params body) v, ?_,
        apiLoop_calls_pos o2 m b hmr⟩
      simp [requestModel, hprov, hm, hmiss2, hres]
  · intro hne
    exact ⟨by simp [requestModel, hprov, hne], apiLoop_calls_pos o3 m b hmr⟩

/-- C5 witness: a standings GET on a configured provider, fetched once at
time 0 with ttl 60, re-issued at time 30 — served from the cache with zero
transport calls. -/
theorem claim_C5_cache_behavior_witness :
    ("sleeper" ∈ ["sleeper"] ∧ toUpperCase "GET" = "GET" ∧ (0 : Nat) < 3 ∧
      (30 : Nat) ≤ 0 + 60) ∧
    requestModel ["sleeper"] "sleeper" "GET" "/x" JVal.jnull JVal.jnull
        (fun _ => Outcome.success 7) 3 300 60 0 [] =
      Except.ok (Except.ok 7, 1,
        cacheSet [] 0 60 (cacheKey "sleeper" "GET" "/x" JVal.jnull JVal.jnull) 7) ∧
    requestModel ["sleeper"] "sleeper" "GET" "/x" JVal.jnull JVal.jnull
        (fun _ => Outcome.success 9) 3 300 60 30
        (cacheSet [] 0 60 (cacheKey "sleeper" "GET" "/x" JVal.jnull JVal.jnull) 7) =
      Except.ok (Except.ok 7, 0,
        cacheSet [] 0 60 (cacheKey "sleeper" "GET" "/x" JVal.jnull JVal.jnull) 7) := by
  have h := claim_C5_cache_behavior ["sleeper"] "sleeper" "GET" "post" "/x"
    JVal.jnull JVal.jnull (fun _ => Outcome.success 7)
    (fun _ => Outcome.success 9) (fun _ => Outcome.success 9)
    3 300 60 0 30 [] 7 (by simp) (by decide) (by rfl) rfl (by omega)
  exact ⟨⟨by simp, by decide, by omega, by omega⟩, h.1, h.2.1 (by omega)⟩

/-! ### Per-provider rate-limiter admission

src/dataingestion.js lines 75-93 build one Bottleneck limiter per provider
(`maxConcurrent`, `minTime`) and route every call for a provider through
`limiters[provider].schedule`; src/league.js lines 184-200 do the same per
configured provider.  The Bottleneck library is a collaborator, so its
admission discipline is modelled from the spec (section 4.2): at most
maxConcurrent tasks of a provider execute simultaneously, and each
provider's queue is independent of every other provider's. -/

/-- Modelled from the spec: the admission state — per provider, the number
of currently executing tasks and the queue of waiting task ids. -/
structure LimiterState where
  running : String → Nat
  queued : String → List Nat

/-- Modelled from the spec: one scheduling event of the per-provider
admission machinery.  `submit` enqueues a task for a provider; `start`
admits the oldest queued task, allowed only while the provider is below its
concurrency limit; `finish` completes a running task. -/
inductive LimStep (maxConcurrent : String → Nat) :
    String → LimiterState → LimiterState → Prop where
  | submit (p : String) (t : Nat) (s : LimiterState) :
      LimStep maxConcurrent p s
        { running := s.running,
          queued := Function.update s.queued p (s.queued p ++ [t]) }
  | start (p : String) (t : Nat) (rest : List Nat) (s : LimiterState)
      (hq : s.queued p = t :: rest)
      (hc : s.running p < maxConcurrent p) :
      LimStep maxConcurrent p s
        { running := Function.update s.running p (s.running p + 1),
          queued := Function.update s.queued p rest }
  | finish (p : String) (s : LimiterState) (hr : 0 < s.running p) :
      LimStep maxConcurrent p s
        { running := Function.update s.running p (s.running p - 1),
          queued := s.queued }

/-- The idle state: nothing running, nothing queued. -/
def limInit : LimiterState := { running := fun _ => 0, queued := fun _ => [] }

/-- States reachable from the idle state by scheduling events. -/
def LimReachable (maxConcurrent : String → Nat) (s : LimiterState) : Prop :=
  Relation.ReflTransGen (fun a b => ∃ p, LimStep maxConcurrent p a b) limInit s

/-- C8: in every reachable admission state, no provider has more tasks
executing than its configured maxConcurrent — however many tasks are
submitted — and a scheduling event of one provider never changes another
provider's running count or queue. -/
theorem claim_C8_bounded_concurrency (maxConcurrent : String → Nat)
    (s : LimiterState) (hreach : LimReachable maxConcurrent s) :
    (∀ p, s.running p ≤ maxConcurrent p) ∧
    (∀ p q s2, LimStep maxConcurrent p s s2 → q ≠ p →
      s2.running q = s.running q ∧ s2.queued q = s.queued q) := by
  constructor
  · induction hreach with
    | refl => intro p; simp [limInit]
    | tail hsteps hstep ih =>
      obtain ⟨p0, hstep⟩ := hstep
      intro p
      rename_i b hb
      cases hstep with
      | submit t s0 => exact ih p
      | start t rest s0 hq hc =>
        by_cases hp : p = p0
        · subst hp
          simp only [Function.update_same]
          omega
        · simpa [Function.update_noteq hp] using ih p
      | finish s0 hr =>
        by_cases hp : p = p0
        · subst hp
          simp only [Function.update_same]
          have := ih p
          omega
        · simpa [Function.update_noteq hp] using ih p
  · intro p q s2 hstep hne
    cases hstep with
    | submit t s0 => exact ⟨rfl, Function.update_noteq hne _ _⟩
    | start t rest s0 hq hc =>
      exact ⟨Function.update_noteq hne _ _, Function.update_noteq hne _ _⟩
    | finish s0 hr => exact ⟨Function.update_noteq hne _ _, rfl⟩

/-- C8 witness: the claim applied to the idle state with every provider
capped at 2 concurrent calls. -/
theorem claim_C8_bounded_concurrency_witness :
    LimReachable (fun _ => 2) limInit ∧ limInit.running "sleeper" ≤ 2 :=
  ⟨Relation.ReflTransGen.refl,
    (claim_C8_bounded_concurrency (fun _ => 2) limInit
      Relation.ReflTransGen.refl).1 "sleeper"⟩

/-! ### CacheService singleton (src/unnamed/part_008)

The store is a Map from keys to entries; an entry holds the value and, when
a positive ttl was given, the pending setTimeout timer, modelled as the
absolute time at which the timer will fire and delete the entry.  A
null/undefined key is `none`.  Operations return Except so that the one
throwing branch of the source (setCache on a null key) is visible. -/

/-- A stored entry: the value and the scheduled firing time of its expiry
timer, `none` when no timer was armed. -/
structure CEntry (α : Type) where
  value : α
  timer : Option Nat
deriving DecidableEq

/-- The Map store of the CacheService. -/
structure CState (α : Type) where
  store : List (String × CEntry α)
deriving DecidableEq

/-- part_008 deleteCache: false for a null key or an absent entry;
otherwise clears the entry's timer and removes it, returning true. -/
def deleteCache {α : Type} (st : CState α) (key : Option String) :
    Except String (Bool × CState α) :=
  match key with
  | none => Except.ok (false, st)
  | some k =>
    match st.store.lookup k with
    | none => Except.ok (false, st)
    | some _ => Except.ok (true, ⟨st.store.filter (fun e => !(e.1 == k))⟩)

/-- part_008 setCache: throws for a null key; otherwise deletes any
previous entry (cancelling its timer), arms a deletion timer only when
ttl > 0 (firing ttl seconds after now), stores the entry and returns
true. -/
def setCache {α : Type} (st : CState α) (now : Nat) (key : Option String)
    (value : α) (ttl : Int) : Except String (Bool × CState α) :=
  match key with
  | none => Except.error "Cache key must be provided"
  | some k =>
    let cleared := st.store.filter (fun e => !(e.1 == k))
    let timer : Option Nat := if 0 < ttl then some (now + ttl.toNat) else none
    Except.ok (true, ⟨cleared ++ [(k, ⟨value, timer⟩)]⟩)

/-- part_008 getCache: null for a null key or a missing entry, the stored
value otherwise.  The body has no throwing branch. -/
def getCache {α : Type} (st : CState α) (key : Option String) :
    Except String (Option α) :=
  match key with
  | none => Except.ok none
  | some k => Except.ok ((st.store.lookup k).map (fun e => e.value))

/-- part_008 clearCache: cancels every timer, empties the store and returns
the previous entry count. -/
def clearCache {α : Type} (st : CState α) : Except String (Nat × CState α) :=
  Except.ok (st.store.length, ⟨[]⟩)

/-- The expiry timers due at time `now` firing: each due timer's callback
runs deleteCache on its key, removing the entry. -/
def fireTimers {α : Type} (st : CState α) (now : Nat) : CState α :=
  ⟨st.store.filter (fun e =>
    match e.2.timer with
    | some t => decide (now < t)
    | none => true)⟩

/-- An operation at the cache's public interface, plus the passage of time
(`fire` runs every timer due at the given instant). -/
inductive COp (α : Type) where
  | set (now : Nat) (key : Option String) (v : α) (ttl : Int)
  | get (key : Option String)
  | del (key : Option String)
  | clear
  | fire (now : Nat)

def applyOp {α : Type} (st : CState α) : COp α → CState α
  | .set now key v ttl =>
    match setCache st now key v ttl with
    | .ok r => r.2
    | .error _ => st
  | .get _ => st
  | .del key =>
    match deleteCache st key with
    | .ok r => r.2
    | .error _ => st
  | .clear => ⟨[]⟩
  | .fire now => fireTimers st now

/-- Whether an operation explicitly removes or overwrites the entry at
key `k`. -/
def touches {α : Type} (k : String) : COp α → Bool
  | .set _ (some k2) _ _ => k2 == k
  | .del (some k2) => k2 == k
  | .clear => true
  | _ => false

theorem lookup_filter_of_pred {α : Type} (p : String × CEntry α → Bool) :
    ∀ (l : List (String × CEntry α)) (k : String) (e : CEntry α),
    l.lookup k = some e → p (k, e) = true →
    (l.filter p).lookup k = some e := by
  intro l
  induction l with
  | nil => intro k e he _; simp [List.lookup] at he
  | cons hd tl ih =>
    intro k e he hp
    obtain ⟨k1, e1⟩ := hd
    by_cases hk : k == k1
    · have hkeq : k = k1 := by simpa using hk
      subst hkeq
      simp [List.lookup] at he
      subst he
      rw [List.filter_cons, if_pos (by simpa using hp)]
      simp [List.lookup]
    · simp [List.lookup, hk] at he
      rw [List.filter_cons]
      by_cases hkeep : p (k1, e1) = true
      · rw [if_pos (by simpa using hkeep)]
        simp [List.lookup, hk]
        exact ih k e he hp
      · rw [if_neg (by simpa using hkeep)]
        exact ih k e he hp

theorem lookup_append_some {α : Type} (l1 l2 : List (String × CEntry α))
    (k : String) (e : CEntry α) (h : l1.lookup k = some e) :
    (l1 ++ l2).lookup k = some e := by
  induction l1 with
  | nil => simp [List.lookup] at h
  | cons hd tl ih =>
    obtain ⟨k1, e1⟩ := hd
    by_cases hk : k == k1
    · simp [List.lookup, hk] at h ⊢
      exact h
    · simp [List.lookup, hk] at h ⊢
      exact ih h

theorem lookup_append_none {α : Type} (l1 l2 : List (String × CEntry α))
    (k : String) (h : l1.lookup k = none) :
    (l1 ++ l2).lookup k = l2.lookup k := by
  induction l1 with
  | nil => simp
  | cons hd tl ih =>
    obtain ⟨k1, e1⟩ := hd
    by_cases hk : k == k1
    · simp only [List.cons_append, List.lookup, hk] at h
      cases h
    · rw [Bool.not_eq_true] at hk
      simp only [List.cons_append, List.lookup, hk] at h ⊢
      exact ih h

theorem lookup_filter_out_self {α : Type} (l : List (String × CEntry α))
    (k : String) : (l.filter (fun e => !(e.1 == k))).lookup k = none := by
  induction l with
  | nil => simp [List.lookup]
  | cons hd tl ih =>
    obtain ⟨k1, e1⟩ := hd
    rw [List.filter_cons]
    by_cases hk : k1 == k
    · simp [hk, ih]
    · have hk2 : ¬ (k == k1) := fun h2 => hk (by simpa using (by simpa using h2 : k = k1).symm)
      simp [hk, List.lookup, hk2, ih]

/-- The invariant behind C9: a timerless binding survives every operation
that does not touch its key. -/
theorem applyOp_preserves_timerless {α : Type} (k : String) (v : α) :
    ∀ (ops : List (COp α)) (st : CState α),
    st.store.lookup k = some ⟨v, none⟩ →
    (∀ op ∈ ops, touches k op = false) →
    (ops.foldl applyOp st).store.lookup k = some ⟨v, none⟩ := by
  intro ops
  induction ops with
  | nil => intro st hinv _; simpa using hinv
  | cons op ops ih =>
    intro st hinv hops
    have hop : touches k op = false := hops op (by simp)
    have hstep : (applyOp st op).store.lookup k = some ⟨v, none⟩ := by
      cases op with
      | set now2 key2 v2 ttl2 =>
        cases key2 with
        | none => simpa [applyOp, setCache] using hinv
        | some k2 =>
          have hk2 : ¬ (k2 == k) := by simpa [touches] using hop
          have hne : k = k2 → False := fun h2 => hk2 (by simp [h2])
          simp only [applyOp, setCache]
          exact lookup_append_some _ _ k ⟨v, none⟩
            (lookup_filter_of_pred _ st.store k ⟨v, none⟩ hinv
              (by simp; exact fun h2 => hne h2))
      | get key2 => simpa [applyOp] using hinv
      | del key2 =>
        cases key2 with
        | none => simpa [applyOp, deleteCache] using hinv
        | some k2 =>
          have hk2 : ¬ (k2 == k) := by simpa [touches] using hop
          have hne : k = k2 → False := fun h2 => hk2 (by simp [h2])
          simp only [applyOp, deleteCache]
          cases hl : st.store.lookup k2 with
          | none => simpa using hinv
          | some e2 =>
            exact lookup_filter_of_pred _ st.store k ⟨v, none⟩ hinv
              (by simp; exact fun h2 => hne h2)
      | clear => simp [touches] at hop
      | fire now2 =>
        simp only [applyOp, fireTimers]
        exact lookup_filter_of_pred _ st.store k ⟨v, none⟩ hinv (by simp)
    rw [List.foldl_cons]
    exact ih (applyOp st op) hstep (fun op2 h2 => hops op2 (by simp [h2]))

/-- C9: setCache with ttl ≤ 0 stores the entry without arming any expiry
timer, so the value stays cached indefinitely: after any sequence of
interface operations and timer firings that never deletes, clears or
overwrites the key, getCache still returns the value. -/
theorem claim_C9_indefinite_cache {α : Type} (st st2 : CState α)
    (now : Nat) (k : String) (v : α) (ttl : Int) (httl : ttl ≤ 0)
    (hset : setCache st now (some k) v ttl = Except.ok (true, st2))
    (ops : List (COp α)) (hops : ∀ op ∈ ops, touches k op = false) :
    getCache (ops.foldl applyOp st2) (some k) = Except.ok (some v) := by
  have hts : ¬ (0 < ttl) := by omega
  have hst2 : st2 = ⟨(st.store.filter (fun e => !(e.1 == k))) ++
      [(k, ⟨v, none⟩)]⟩ := by
    simp [setCache, hts] at hset
    exact hset.symm
  have hinv0 : st2.store.lookup k = some ⟨v, none⟩ := by
    rw [hst2]
    rw [lookup_append_none _ _ _ (lookup_filter_out_self st.store k)]
    simp [List.lookup]
  have hfin := applyOp_preserves_timerless k v ops st2 hinv0 hops
  simp [getCache, hfin]

/-- C9 witness: value 42 stored at time 5 with ttl 0; a timer sweep, a set
and a delete of another key later, getCache still returns 42. -/
theorem claim_C9_indefinite_cache_witness :
    ((0 : Int) ≤ 0 ∧
      setCache (⟨[]⟩ : CState Nat) 5 (some "league:1:standings") 42 0 =
        Except.ok (true, ⟨[("league:1:standings", ⟨42, none⟩)]⟩)) ∧
    getCache ([COp.fire 999, COp.set 7 (some "other") 1 3,
        COp.del (some "other"),
        COp.get (some "league:1:standings")].foldl applyOp
      (⟨[("league:1:standings", ⟨42, none⟩)]⟩ : CState Nat))
      (some "league:1:standings") = Except.ok (some 42) := by
  refine ⟨⟨by decide, by rfl⟩, ?_⟩
  exact claim_C9_indefinite_cache ⟨[]⟩ ⟨[("league:1:standings", ⟨42, none⟩)]⟩
    5 "league:1:standings" 42 0 (by decide) (by rfl) _ (by decide)

/-- C10: a null/undefined cache key is handled asymmetrically at the
CacheService interface: setCache throws for it, while getCache returns null
(absent) and deleteCache returns false, neither throwing; and getCache
never throws for any key at all. -/
theorem claim_C10_null_key {α : Type} (st : CState α) (v : α) (ttl : Int)
    (now : Nat) :
    setCache st now none v ttl = Except.error "Cache key must be provided" ∧
    getCache st none = Except.ok none ∧
    deleteCache st none = Except.ok (false, st) ∧
    (∀ key, ∃ r, getCache st key = Except.ok r) := by
  refine ⟨rfl, rfl, rfl, ?_⟩
  intro key
  cases key with
  | none => exact ⟨none, rfl⟩
  | some k => exact ⟨_, rfl⟩

end LeagueNexus
